import Mathlib

/-!
Verification development for a POSIX-style shell written in Rust
(lexer / parser / expander / executor).  Each definition below is a
shallow embedding of the corresponding Rust item; the Rust file and
function are named in the doc comment.  Character streams are modelled
as `List Char` where the head plays the role of the lexer's `current`
character; machine integers (`i32`) are modelled as `Int`; fallible
operations return `Except`.
-/

namespace CCShell

/-- `src/types.rs`: `QuoteType`. -/
inductive QuoteType where
  | Single
  | Double
  | Escaped
  | NoneQ
deriving DecidableEq, Repr

/-- `src/word.rs`: `WordPart`. -/
inductive WordPart where
  | Simple (s : String)
  | SingleQuoted (s : String)
  | DoubleQuoted (s : String)
deriving DecidableEq, Repr

/-- `src/word.rs`: `Word` — an ordered sequence of parts. -/
structure Word where
  parts : List WordPart
deriving DecidableEq, Repr

/-- `src/lexer.rs`: `Operator`. -/
inductive Operator where
  | Pipe
  | PipeAnd
  | And
  | Or
  | Background
  | Semicolon
  | RedirectOut
  | RedirectIn
  | RedirectAppend
  | RedirectError
  | RedirectHereDoc
  | RedirectHereStr
  | RedirectDup
  | RedirectErrorAppend
deriving DecidableEq, Repr

/-- `src/lexer.rs`: `Token`. -/
inductive Token where
  | Word (w : CCShell.Word)
  | Operator (op : CCShell.Operator)
  | Quote (q : QuoteType)
  | Space
  | NewLine
  | CommandSubst (s : String)
deriving DecidableEq, Repr

/-- The backtick character (written via its code point to keep the
source free of raw backticks). -/
def btick : Char := Char.ofNat 96

/-- Space or tab, the characters skipped by `Lexer::consume_whitespace`. -/
def isWhitespaceChar (c : Char) : Bool := c = ' ' ∨ c = '\t'

/-- The characters that terminate an unquoted word in `read_word`
(space, tab, newline, the operator characters, and the backtick). -/
def isWordBreak (c : Char) : Bool :=
  c = ' ' ∨ c = '\t' ∨ c = '\n' ∨ c = '|' ∨ c = '&' ∨ c = '>' ∨ c = '<' ∨ c = ';' ∨ c = btick

/-- `src/lexer.rs`: the escape table of `read_until_backtick` — an escaped
backtick, backslash or dollar becomes the bare character, any other
escaped character keeps its backslash. -/
def backtickEscape (d : Char) : List Char :=
  if d = btick ∨ d = '\\' ∨ d = '$' then [d] else ['\\', d]

/-- `src/lexer.rs`: the `escape_next` loop of `read_until_backtick` —
collects characters up to the closing backtick, processing the escape
pairs; returns the collected content together with the remaining
input. -/
def readUntilBacktickAux (esc : Bool) : List Char → (List Char × List Char)
  | [] => ([], [])
  | c :: rest =>
    if esc then
      let r := readUntilBacktickAux false rest
      (backtickEscape c ++ r.1, r.2)
    else if c = '\\' then readUntilBacktickAux true rest
    else if c = btick then ([], rest)
    else
      let r := readUntilBacktickAux false rest
      (c :: r.1, r.2)

/-- `src/lexer.rs`: `read_until_backtick`, started with no pending
escape. -/
def readUntilBacktick (cs : List Char) : List Char × List Char :=
  readUntilBacktickAux false cs

/-- If the current segment is nonempty, commit it as one `Simple` part
(the flush performed before an opening quote in `read_word`). -/
def flushSimple (seg : List Char) : List WordPart :=
  if seg = [] then [] else [WordPart.Simple (String.mk seg)]

/-- Commit the segment left over at end of input in `read_word`,
according to the quote state. -/
def finalSegment (q : QuoteType) (seg : List Char) : List WordPart :=
  if seg = [] then []
  else
    match q with
    | QuoteType.NoneQ => [WordPart.Simple (String.mk seg)]
    | QuoteType.Single => [WordPart.SingleQuoted (String.mk seg)]
    | QuoteType.Double => [WordPart.DoubleQuoted (String.mk seg)]
    | QuoteType.Escaped => []

/-- `src/lexer.rs`: the word state machine of `read_word`.  `q` is
`current_quote_type`, `esc` is `escape_next`, `seg` is
`current_segment`, `parts` the committed parts.  The unquoted
backslash arm of the source consumes the backslash and the escaped
character in a single loop iteration; here it is stepped one character
at a time through the `esc` flag, exactly the way the source's
double-quote arm already does, with the escaped character pushed
before any word-break test — the resulting word and remaining input
are the same.  The source leaves the terminating delimiter
unconsumed. -/
def readWordAux (q : QuoteType) (esc : Bool) (seg : List Char)
    (parts : List WordPart) : List Char → (Word × List Char)
  | [] => (⟨parts ++ finalSegment q seg⟩, [])
  | c :: rest =>
    match q with
    | QuoteType.NoneQ =>
      if esc then readWordAux QuoteType.NoneQ false (seg ++ [c]) parts rest
      else if c = '\\' then readWordAux QuoteType.NoneQ true (seg ++ ['\\']) parts rest
      else if c = '\'' then
        readWordAux QuoteType.Single false [] (parts ++ flushSimple seg) rest
      else if c = '"' then
        readWordAux QuoteType.Double false [] (parts ++ flushSimple seg) rest
      else if isWordBreak c then (⟨parts ++ finalSegment QuoteType.NoneQ seg⟩, c :: rest)
      else readWordAux QuoteType.NoneQ false (seg ++ [c]) parts rest
    | QuoteType.Single =>
      if c = '\'' then
        readWordAux QuoteType.NoneQ false [] (parts ++ [WordPart.SingleQuoted (String.mk seg)]) rest
      else readWordAux QuoteType.Single false (seg ++ [c]) parts rest
    | QuoteType.Double =>
      if esc then readWordAux QuoteType.Double false (seg ++ [c]) parts rest
      else if c = '\\' then readWordAux QuoteType.Double true (seg ++ ['\\']) parts rest
      else if c = '"' then
        readWordAux QuoteType.NoneQ false [] (parts ++ [WordPart.DoubleQuoted (String.mk seg)]) rest
      else readWordAux QuoteType.Double false (seg ++ [c]) parts rest
    | QuoteType.Escaped => (⟨parts⟩, c :: rest)

/-- `src/lexer.rs`: `read_word`, started in the unquoted state. -/
def readWord (cs : List Char) : Word × List Char :=
  readWordAux QuoteType.NoneQ false [] [] cs

/-- `src/lexer.rs`: `read_operator`.  Only reached with an operator
character or a digit at the head; the final catch-all mirrors the
source's unreachable arm. -/
def readOperator : List Char → (Token × List Char)
  | [] => (Token.NewLine, [])
  | c :: rest =>
    if c.isDigit then
      let num : Int := (c.toNat - '0'.toNat : Nat)
      match rest with
      | '>' :: rest2 =>
        match rest2 with
        | '>' :: rest3 =>
          if num = 1 then (Token.Operator Operator.RedirectAppend, rest3)
          else if num = 2 then (Token.Operator Operator.RedirectErrorAppend, rest3)
          else (Token.Word ⟨[WordPart.Simple (toString num ++ ">>")]⟩, rest3)
        | _ =>
          if num = 2 then (Token.Operator Operator.RedirectError, rest2)
          else (Token.Operator Operator.RedirectOut, rest2)
      | _ => (Token.Word ⟨[WordPart.Simple (toString num)]⟩, rest)
    else if c = '>' then
      match rest with
      | '>' :: rest2 => (Token.Operator Operator.RedirectAppend, rest2)
      | '&' :: rest2 => (Token.Operator Operator.RedirectDup, rest2)
      | _ => (Token.Operator Operator.RedirectOut, rest)
    else if c = '<' then
      match rest with
      | '<' :: rest2 =>
        match rest2 with
        | '<' :: rest3 => (Token.Operator Operator.RedirectHereStr, rest3)
        | _ => (Token.Operator Operator.RedirectHereDoc, rest2)
      | '&' :: rest2 => (Token.Operator Operator.RedirectDup, rest2)
      | _ => (Token.Operator Operator.RedirectIn, rest)
    else if c = '|' then
      match rest with
      | '|' :: rest2 => (Token.Operator Operator.Or, rest2)
      | _ => (Token.Operator Operator.Pipe, rest)
    else if c = '&' then
      match rest with
      | '&' :: rest2 => (Token.Operator Operator.And, rest2)
      | _ => (Token.Operator Operator.Background, rest)
    else if c = ';' then (Token.Operator Operator.Semicolon, rest)
    else (Token.NewLine, rest)

/-- The operator start characters dispatched to `read_operator` by
`next_token`. -/
def isOperatorStart (c : Char) : Bool :=
  c = '|' ∨ c = '&' ∨ c = '>' ∨ c = '<' ∨ c = ';'

/-- `src/lexer.rs`: the `while let Some(c) = self.current` loop body of
`next_token` (after the initial `consume_whitespace`).  The whitespace
arm mirrors the source exactly: it advances and emits a single `Space`
token only when the following character is not whitespace. -/
def nextTokenLoop : List Char → Option (Token × List Char)
  | [] => none
  | c :: rest =>
    if c = btick then
      let r := readUntilBacktick rest
      some (Token.Word ⟨[WordPart.Simple ("`" ++ String.mk r.1 ++ "`")]⟩, r.2)
    else if c = ' ' ∨ c = '\t' then
      match rest with
      | [] => none
      | d :: _ =>
        if d = ' ' ∨ d = '\t' ∨ d = '\n' then nextTokenLoop rest
        else some (Token.Space, rest)
    else if c = '\n' then some (Token.NewLine, rest)
    else if c.isDigit then
      if rest.head? = some '>' then some (readOperator (c :: rest))
      else some (Token.Word (readWord (c :: rest)).1, (readWord (c :: rest)).2)
    else if isOperatorStart c then some (readOperator (c :: rest))
    else some (Token.Word (readWord (c :: rest)).1, (readWord (c :: rest)).2)

/-- `src/lexer.rs`: `next_token` — `consume_whitespace` followed by the
dispatch loop. -/
def nextToken (cs : List Char) : Option (Token × List Char) :=
  nextTokenLoop (cs.dropWhile isWhitespaceChar)

theorem readUntilBacktickAux_length_le (esc : Bool) (cs : List Char) :
    (readUntilBacktickAux esc cs).2.length ≤ cs.length := by
  induction cs generalizing esc with
  | nil => simp [readUntilBacktickAux]
  | cons c tl ih =>
    simp only [readUntilBacktickAux, List.length_cons]
    repeat' split
    all_goals first
      | exact Nat.le_succ_of_le (ih _)
      | exact Nat.le_succ _

theorem readUntilBacktick_length_le (cs : List Char) :
    (readUntilBacktick cs).2.length ≤ cs.length :=
  readUntilBacktickAux_length_le false cs

theorem readWordAux_length_le (q : QuoteType) (esc : Bool) (seg : List Char)
    (parts : List WordPart) (cs : List Char) :
    (readWordAux q esc seg parts cs).2.length ≤ cs.length := by
  induction cs generalizing q esc seg parts with
  | nil => simp [readWordAux]
  | cons c tl ih =>
    cases q <;> simp only [readWordAux] <;> repeat' split
    all_goals first
      | exact Nat.le_succ_of_le (ih _ _ _ _)
      | simp

theorem readOperator_length_lt (c : Char) (rest : List Char) :
    (readOperator (c :: rest)).2.length < (c :: rest).length := by
  simp only [readOperator]
  repeat' split
  all_goals simp_all
  all_goals omega

theorem isWordBreak_false_of_isDigit (c : Char) (h : c.isDigit = true) :
    isWordBreak c = false := by
  simp only [isWordBreak, decide_eq_false_iff_not]
  rintro (rfl | rfl | rfl | rfl | rfl | rfl | rfl | rfl | rfl) <;>
    exact absurd h (by decide)

theorem isWordBreak_false_of_conds (c : Char) (h1 : ¬ c = btick)
    (h2 : ¬ (c = ' ' ∨ c = '\t')) (h3 : ¬ c = '\n')
    (h5 : ¬ isOperatorStart c = true) : isWordBreak c = false := by
  simp only [isOperatorStart, decide_eq_true_eq] at h5
  simp only [isWordBreak, decide_eq_false_iff_not]
  push_neg at h2 h5 ⊢
  exact ⟨h2.1, h2.2, h3, h5.1, h5.2.1, h5.2.2.1, h5.2.2.2.1, h5.2.2.2.2, h1⟩

theorem readWordAux_consume_lt (seg : List Char) (parts : List WordPart)
    (c : Char) (rest : List Char) (h : isWordBreak c = false) :
    (readWordAux QuoteType.NoneQ false seg parts (c :: rest)).2.length <
      (c :: rest).length := by
  simp only [readWordAux]
  repeat' split
  all_goals first
    | (simp_all; done)
    | exact Nat.lt_succ_of_le (readWordAux_length_le _ _ _ _ _)

theorem nextTokenLoop_shrinks (cs : List Char) (t : Token) (rest : List Char)
    (h : nextTokenLoop cs = some (t, rest)) : rest.length < cs.length := by
  induction cs with
  | nil => simp [nextTokenLoop] at h
  | cons c tl ih =>
    simp only [nextTokenLoop] at h
    split at h
    · have h2 := congrArg Prod.snd (Option.some.inj h)
      simp only at h2
      rw [← h2]
      exact Nat.lt_succ_of_le (readUntilBacktick_length_le tl)
    · split at h
      · split at h
        · exact absurd h (by simp)
        · split at h
          · exact Nat.lt_succ_of_lt (ih h)
          · have h2 := congrArg Prod.snd (Option.some.inj h)
            simp only at h2
            rw [← h2]
            simp
      · split at h
        · have h2 := congrArg Prod.snd (Option.some.inj h)
          simp only at h2
          rw [← h2]
          simp
        · split at h
          · split at h
            · have h2 := congrArg Prod.snd (Option.some.inj h)
              simp only at h2
              rw [← h2]
              exact readOperator_length_lt c tl
            · have h2 := congrArg Prod.snd (Option.some.inj h)
              simp only at h2
              rw [← h2]
              exact readWordAux_consume_lt [] [] c tl
                (isWordBreak_false_of_isDigit c (by assumption))
          · split at h
            · have h2 := congrArg Prod.snd (Option.some.inj h)
              simp only at h2
              rw [← h2]
              exact readOperator_length_lt c tl
            · have h2 := congrArg Prod.snd (Option.some.inj h)
              simp only at h2
              rw [← h2]
              refine readWordAux_consume_lt [] [] c tl ?_
              exact isWordBreak_false_of_conds c (by assumption) (by assumption)
                (by assumption) (by assumption)

theorem nextToken_shrinks (cs : List Char) (t : Token) (rest : List Char)
    (h : nextToken cs = some (t, rest)) : rest.length < cs.length := by
  have h1 := nextTokenLoop_shrinks _ _ _ h
  exact lt_of_lt_of_le h1 (List.dropWhile_sublist _).length_le

/-- `src/lexer.rs`: the token-collecting loop of `lex`. -/
def lexAux (cs : List Char) : List Token :=
  match h : nextToken cs with
  | none => []
  | some (t, rest) => t :: lexAux rest
termination_by cs.length
decreasing_by exact nextToken_shrinks cs _ _ h

/-- `src/lexer.rs`: `lex` — repeatedly calls `next_token` until the input
is exhausted. -/
def lex (s : String) : List Token := lexAux s.data

/-- `src/ast.rs`: `RedirectMode`. -/
inductive RedirectMode where
  | Overwrite
  | Append
  | Input
  | HereDoc
  | HereString
  | DupOutput
  | DupInput
deriving DecidableEq, Repr

/-- `src/ast.rs`: `RedirectTarget`. -/
inductive RedirectTarget where
  | File (w : Word)
  | Descriptor (n : Int)
  | HereDoc (content : String)
  | HereString (content : String)
deriving DecidableEq, Repr

/-- `src/ast.rs`: `ASTNode`. -/
inductive ASTNode where
  | Command (name : Word) (args : List Word)
  | Pipe (left right : ASTNode)
  | Redirect (command : ASTNode) (fd : Int) (target : RedirectTarget) (mode : RedirectMode)
  | Background (command : ASTNode)
  | LogicalAnd (left right : ASTNode)
  | LogicalOr (left right : ASTNode)
  | Subshell (command : ASTNode)
  | Semicolon (left right : ASTNode)
  | Assignment (var : String) (val : Word)
  | CommandSubstitution (command_string : String)
deriving DecidableEq, Repr

/-- `src/types.rs`: `ShellError`.  The payloads of `IoError` and
`NixError` are reduced to their textual context. -/
inductive ShellError where
  | IoError (msg : String)
  | NixError (context : String)
  | ParseError (msg : String)
  | CommandNotFound (name : String)
  | InvalidSyntax (msg : String)
  | InternalError (msg : String)
deriving DecidableEq, Repr

/-- `HashMap::get` on the environment, modelled over an association
list (first binding wins). -/
def envGet (env : List (String × String)) (k : String) : Option String :=
  (env.find? (fun p => p.1 == k)).map Prod.snd

/-- `HashMap::insert` on the environment: the new binding replaces any
old one for the same key. -/
def envInsert (env : List (String × String)) (k v : String) : List (String × String) :=
  (k, v) :: env.filter (fun p => p.1 != k)

/-- `src/executor.rs`: the `Executor` struct — the shell session state.
The process id is not part of this struct (the source calls `getpid()`
live); it is passed separately to the functions that need it. -/
structure ExecState where
  last_status : Int
  environment : List (String × String)
  current_dir : String
  aliases : List (String × String)
  functions : List (String × ASTNode)
  history_file : Option String
deriving DecidableEq, Repr

/-- `src/executor.rs`: `Executor::new_for_command_substitution`. -/
def newForCommandSubstitution (s : ExecState) : ExecState :=
  { last_status := 0
    environment := s.environment
    current_dir := s.current_dir
    aliases := s.aliases
    functions := s.functions
    history_file := s.history_file }

/-- The opening brace character (written via its code point). -/
def lbrace : Char := Char.ofNat 123

/-- The closing brace character (written via its code point). -/
def rbrace : Char := Char.ofNat 125

/-- The variable-name characters accepted by `read_variable_name`:
`char::is_alphanumeric` or underscore (the embedding's alphanumeric
test agrees with Rust's on ASCII). -/
def isVarChar (c : Char) : Bool := c.isAlphanum ∨ c = '_'

/-- `src/executor.rs`: the brace-delimited loop of `read_variable_name`
— collects name characters until the closing brace (consumed), erring
on any other non-name character; returns collected characters and the
remaining input. -/
def bracedVarName : List Char → Except ShellError (List Char × List Char)
  | [] => Except.ok ([], [])
  | c :: rest =>
    if c = rbrace then Except.ok ([], rest)
    else if isVarChar c then
      match bracedVarName rest with
      | Except.error e => Except.error e
      | Except.ok (acc, rest') => Except.ok (c :: acc, rest')
    else Except.error (ShellError.InvalidSyntax "Invalid character in variable name within dollar-brace")

/-- `src/executor.rs`: `Executor::read_variable_name`.  The brace form
applies the source's post-loop check (`var_name.is_empty() &&
chars.peek() != Some(rbrace)` errors); the bare form takes the longest
run of name characters. -/
def readVariableName : List Char → Except ShellError (String × List Char)
  | [] => Except.ok ("", [])
  | c :: rest =>
    if c = lbrace then
      match bracedVarName rest with
      | Except.error e => Except.error e
      | Except.ok (acc, rest') =>
        if acc.isEmpty ∧ rest'.head? ≠ some rbrace then
          Except.error (ShellError.InvalidSyntax "Empty or malformed variable name in dollar-brace")
        else Except.ok (String.mk acc, rest')
    else Except.ok (String.mk ((c :: rest).takeWhile isVarChar), (c :: rest).dropWhile isVarChar)

theorem bracedVarName_length_le (cs : List Char) (acc rest' : List Char)
    (h : bracedVarName cs = Except.ok (acc, rest')) : rest'.length ≤ cs.length := by
  induction cs generalizing acc rest' with
  | nil =>
    simp [bracedVarName] at h
    simp [h.2]
  | cons c tl ih =>
    simp only [bracedVarName] at h
    split at h
    · rcases Except.ok.inj h with h'
      have h2 := congrArg Prod.snd h'
      simp only at h2
      simp [← h2]
    · split at h
      · split at h
        · exact absurd h (by simp)
        · rcases Except.ok.inj h with h'
          have h2 := congrArg Prod.snd h'
          simp only at h2
          rename_i acc2 rest2 heq
          subst h2
          exact Nat.le_succ_of_le (ih _ _ heq)
      · exact absurd h (by simp)

theorem readVariableName_length_le (cs : List Char) (nm : String) (rest' : List Char)
    (h : readVariableName cs = Except.ok (nm, rest')) : rest'.length ≤ cs.length := by
  cases cs with
  | nil =>
    simp [readVariableName] at h
    simp [h.2]
  | cons c tl =>
    simp only [readVariableName] at h
    split at h
    · split at h
      · exact absurd h (by simp)
      · split at h
        · exact absurd h (by simp)
        · rcases Except.ok.inj h with h'
          have h2 := congrArg Prod.snd h'
          simp only at h2
          subst h2
          rename_i acc2 rest2 heq _
          exact Nat.le_succ_of_le (bracedVarName_length_le tl _ _ heq)
    · rcases Except.ok.inj h with h'
      have h2 := congrArg Prod.snd h'
      simp only at h2
      subst h2
      exact (List.dropWhile_sublist _).length_le

/-- `src/executor.rs`: the double-quoted escape table of
`expand_string_segment` (`n`, `t`, backslash, double quote, dollar and
backtick are special; anything else keeps its backslash). -/
def dqEscape (d : Char) : String :=
  if d = 'n' then "\n"
  else if d = 't' then "\t"
  else if d = '\\' then "\\"
  else if d = '"' then "\""
  else if d = '$' then "$"
  else if d = btick then String.mk [btick]
  else String.mk ['\\', d]

/-- `src/executor.rs`: the character loop of `expand_string_segment`.
`st` supplies the environment and the last status, `pid` the value of
`getpid()`, `dq` is `is_double_quoted`. -/
def expandStringSegmentAux (st : ExecState) (pid : Nat) (dq : Bool) :
    List Char → Except ShellError String
  | [] => Except.ok ""
  | c :: rest =>
    if c = '\\' then
      match rest with
      | [] => Except.ok "\\"
      | d :: rest' =>
        let pre : String := if dq then dqEscape d else String.mk [d]
        match expandStringSegmentAux st pid dq rest' with
        | Except.error e => Except.error e
        | Except.ok s => Except.ok (pre ++ s)
    else if c = '$' then
      match rest with
      | [] =>
        -- peek is exhausted: `read_variable_name` consumes nothing, the
        -- name is empty, a bare dollar is pushed and the loop ends
        Except.ok "$"
      | d :: rest2 =>
        if d = '?' then
          match expandStringSegmentAux st pid dq rest2 with
          | Except.error e => Except.error e
          | Except.ok s => Except.ok (toString st.last_status ++ s)
        else if d = '$' then
          match expandStringSegmentAux st pid dq rest2 with
          | Except.error e => Except.error e
          | Except.ok s => Except.ok (toString pid ++ s)
        else
          match hv : readVariableName (d :: rest2) with
          | Except.error e => Except.error e
          | Except.ok (nm, rest') =>
            let v : String :=
              if nm.isEmpty then "$" else (envGet st.environment nm).getD ""
            match expandStringSegmentAux st pid dq rest' with
            | Except.error e => Except.error e
            | Except.ok s => Except.ok (v ++ s)
    else
      match expandStringSegmentAux st pid dq rest with
      | Except.error e => Except.error e
      | Except.ok s => Except.ok (String.mk [c] ++ s)
termination_by cs => cs.length
decreasing_by
  all_goals simp only [List.length_cons]
  all_goals first
    | omega
    | (have hle := readVariableName_length_le _ _ _ hv
       simp only [List.length_cons] at hle
       omega)

/-- `src/executor.rs`: `expand_string_segment` on a string segment. -/
def expandStringSegment (st : ExecState) (pid : Nat) (dq : Bool) (segment : String) :
    Except ShellError String :=
  expandStringSegmentAux st pid dq segment.data

/-- `src/executor.rs`: the `while captured_output.ends_with(newline) {
pop }` loop — removes every trailing newline character. -/
def dropTrailingNewlines (cs : List Char) : List Char :=
  (cs.reverse.dropWhile (fun c => c = '\n')).reverse

/-- String form of `dropTrailingNewlines`. -/
def stripTrailingNewlines (s : String) : String :=
  String.mk (dropTrailingNewlines s.data)

/-- Oracle for the OS-level half of a backtick command substitution:
`capture cmd` is everything the forked child writes to the pipe
(assumed valid UTF-8, the source turns invalid UTF-8 into an
`InternalError`); `parses cmd` tells whether `parse(&lex(cmd))`
succeeds in the parent before the fork, and `parseMsg` is its error
message. -/
structure SubstOracle where
  parses : String → Bool
  parseMsg : String → String
  capture : String → String

/-- Whether `s` is recognised by `expand_word_to_string` as a backtick
span (`starts_with` and `ends_with` a backtick, length at least two);
returns the inner command text. -/
def backtickInner : List Char → Option (List Char)
  | [] => none
  | c :: rest =>
    if c = btick ∧ rest.getLast? = some btick then some rest.dropLast else none

/-- The token test used on a substituted command's token stream
(`matches!(t, Token::Space | Token::NewLine)`). -/
def isSpaceOrNewlineToken : Token → Bool
  | Token.Space => true
  | Token.NewLine => true
  | _ => false

/-- `src/executor.rs`: the `WordPart::Simple` arm of
`expand_word_to_string`: a backtick span is lexed, parsed (a parse
error aborts the expansion) and run in a forked child whose captured
output loses all trailing newlines; an empty or all-whitespace command
contributes nothing; every other simple fragment goes through
`expand_string_segment` unquoted. -/
def expandSimplePart (st : ExecState) (pid : Nat) (o : SubstOracle) (s : String) :
    Except ShellError String :=
  match backtickInner s.data with
  | some inner =>
    let cmdStr := String.mk inner
    if cmdStr.isEmpty then Except.ok ""
    else if (lex cmdStr).all isSpaceOrNewlineToken then Except.ok ""
    else if o.parses cmdStr then Except.ok (stripTrailingNewlines (o.capture cmdStr))
    else Except.error (ShellError.ParseError (o.parseMsg cmdStr))
  | none => expandStringSegment st pid false s

/-- `src/executor.rs`: the part loop of `expand_word_to_string` — parts
are expanded left to right and concatenated, the first error aborts. -/
def expandWordParts (st : ExecState) (pid : Nat) (o : SubstOracle) :
    List WordPart → Except ShellError String
  | [] => Except.ok ""
  | p :: ps =>
    let head : Except ShellError String :=
      match p with
      | WordPart.Simple s => expandSimplePart st pid o s
      | WordPart.SingleQuoted t => Except.ok t
      | WordPart.DoubleQuoted t => expandStringSegment st pid true t
    match head with
    | Except.error e => Except.error e
    | Except.ok hs =>
      match expandWordParts st pid o ps with
      | Except.error e => Except.error e
      | Except.ok rest => Except.ok (hs ++ rest)

/-- `src/executor.rs`: `expand_word_to_string`. -/
def expandWordToString (st : ExecState) (pid : Nat) (o : SubstOracle) (w : Word) :
    Except ShellError String :=
  expandWordParts st pid o w.parts

/-- The effect of `crate::builtins::execute_builtin` on the mutable
environment and current directory, plus the error message when it
returns `Err`. -/
structure BuiltinOutcome where
  environment : List (String × String)
  current_dir : String
  err : Option String

/-- The external collaborators of the executor: `isBuiltin` is
`crate::utils::is_builtin`; `resolve` is `crate::utils::search_cmd`
over the name and the `PATH` value; `run` gives the exit code of the
spawned external process (normal termination assumed); `runBuiltin`
is the builtin dispatch; `oracle` backs command substitution. -/
structure World where
  isBuiltin : String → Bool
  runBuiltin : String → List String → List (String × String) → String → BuiltinOutcome
  resolve : String → String → Option String
  run : String → List String → Int
  oracle : SubstOracle

/-- The `last_status` update applied to an execution result:
`status.code().unwrap_or(1)` on `Ok` (the code itself under the
normal-termination model), `127` for `CommandNotFound`, `1` for any
other error — the `match execution_result` tail of the `Command` arm,
repeated verbatim in the `Pipe`/`Logical*`/`Semicolon` arms. -/
def resultStatus : Except ShellError Int → Int
  | Except.ok code => code
  | Except.error (ShellError.CommandNotFound _) => 127
  | Except.error _ => 1

/-- The exit code a forked child passes to `process::exit`:
`status.code().unwrap_or(0)` on `Ok`, `127` on a shell error. -/
def childExitCode : Except ShellError Int → Int
  | Except.ok code => code
  | Except.error _ => 127

/-- `self.environment.get("PATH").cloned().unwrap_or_default()`. -/
def pathVar (st : ExecState) : String := (envGet st.environment "PATH").getD ""

/-- `args.iter().map(expand_word_to_string).collect::<Result<_,_>>()`. -/
def expandArgs (st : ExecState) (pid : Nat) (o : SubstOracle) :
    List Word → Except ShellError (List String)
  | [] => Except.ok []
  | a :: rest =>
    match expandWordToString st pid o a with
    | Except.error e => Except.error e
    | Except.ok s =>
      match expandArgs st pid o rest with
      | Except.error e => Except.error e
      | Except.ok ss => Except.ok (s :: ss)

/-- `src/executor.rs`: `Executor::execute_internal` (and so `execute`).
Exit statuses are the integer codes of normally terminated processes;
the returned state is the parent's `self` after the call.  Forked
children (the left leg of a pipe, subshells, redirected commands,
background jobs, substitution children) run on a copy of the state
that dies with the child, so only their exit code — not their state —
reaches the parent; the pipe/stdin file-descriptor plumbing carries no
status information and is not represented.  OS failures of
`fork`/`pipe`/`open` and signal terminations are outside the model. -/
def exec (w : World) (pid : Nat) (st : ExecState) : ASTNode → Except ShellError Int × ExecState
  | ASTNode.Command name args =>
    match expandWordToString st pid w.oracle name with
    | Except.error e => (Except.error e, st)
    | Except.ok nameStr =>
      match expandArgs st pid w.oracle args with
      | Except.error e => (Except.error e, st)
      | Except.ok argStrs =>
        if w.isBuiltin nameStr then
          let outcome := w.runBuiltin nameStr argStrs st.environment st.current_dir
          let st' := { st with environment := outcome.environment
                               current_dir := outcome.current_dir }
          match outcome.err with
          | none => (Except.ok 0, { st' with last_status := 0 })
          | some _msg => (Except.ok 1, { st' with last_status := 1 })
        else
          match w.resolve nameStr (pathVar st) with
          | some path =>
            let code := w.run path argStrs
            (Except.ok code, { st with last_status := code })
          | none =>
            -- eprintln Command: {name}: command not found, then status 127
            (Except.error (ShellError.CommandNotFound nameStr), { st with last_status := 127 })
  | ASTNode.Pipe _left right =>
    -- the left side runs in a forked child writing into the OS pipe; its
    -- state and exit status never reach the parent (the waitpid arms are
    -- all no-ops); the parent executes the right side and re-derives
    -- last_status from the right result
    let r := exec w pid st right
    (r.1, { r.2 with last_status := resultStatus r.1 })
  | ASTNode.Redirect command _fd target _mode =>
    match target with
    | RedirectTarget.File tw =>
      match expandWordToString st pid w.oracle tw with
      | Except.error e => (Except.error e, st)
      | Except.ok _path =>
        -- execute_with_redirection_to_file: fork, child runs the command
        -- and exits with its code, parent waits and records it
        let code := childExitCode (exec w pid st command).1
        (Except.ok code, { st with last_status := code })
    | RedirectTarget.Descriptor _n =>
        -- execute_with_fd_duplication, same fork/wait shape
        let code := childExitCode (exec w pid st command).1
        (Except.ok code, { st with last_status := code })
    | RedirectTarget.HereDoc _content =>
        let code := childExitCode (exec w pid st command).1
        (Except.ok code, { st with last_status := code })
    | RedirectTarget.HereString _content =>
        let code := childExitCode (exec w pid st command).1
        (Except.ok code, { st with last_status := code })
  | ASTNode.Background _command =>
    -- parent returns immediately with status 0; the child is detached
    (Except.ok 0, { st with last_status := 0 })
  | ASTNode.LogicalAnd left right =>
    let l := exec w pid st left
    match l.1 with
    | Except.ok lcode =>
      let st1 := { l.2 with last_status := lcode }
      if lcode = 0 then
        let r := exec w pid st1 right
        (r.1, { r.2 with last_status := resultStatus r.1 })
      else (Except.ok lcode, st1)
    | Except.error e =>
      (Except.error e, { l.2 with last_status := resultStatus (Except.error e) })
  | ASTNode.LogicalOr left right =>
    let l := exec w pid st left
    match l.1 with
    | Except.ok lcode =>
      let st1 := { l.2 with last_status := lcode }
      if lcode ≠ 0 then
        let r := exec w pid st1 right
        (r.1, { r.2 with last_status := resultStatus r.1 })
      else (Except.ok lcode, st1)
    | Except.error e =>
      (Except.error e, { l.2 with last_status := resultStatus (Except.error e) })
  | ASTNode.Subshell command =>
    -- fork: child executes and exits with its code, its state dies with
    -- it; parent waits and records the code
    let code := childExitCode (exec w pid st command).1
    (Except.ok code, { st with last_status := code })
  | ASTNode.Semicolon left right =>
    let l := exec w pid st left
    let st1 := { l.2 with last_status := resultStatus l.1 }
    let r := exec w pid st1 right
    (r.1, { r.2 with last_status := resultStatus r.1 })
  | ASTNode.Assignment var val =>
    match expandWordToString st pid w.oracle val with
    | Except.error e => (Except.error e, st)
    | Except.ok v =>
      (Except.ok 0, { st with environment := envInsert st.environment var v
                              last_status := 0 })
  | ASTNode.CommandSubstitution _s =>
    (Except.error (ShellError.InternalError
      "CommandSubstitution node should not be directly executed."), st)

/-! ## The parser of `src/parser.rs`

`src/parser.rs` is a stale String-token parser: it consumes the
`TokenType` stream of `src/tokenizer.rs` (it even matches a
`TokenType::Space` variant that the tokenizer enum does not declare,
included below so the parser's source text is representable) and
builds `ASTNode` variants with `String` command names and a
`file: String` redirect field that predate the `Word`-based `ASTNode`
of `src/ast.rs`.  Its node shape is embedded as `ParsedNode`.  The
loops are driven by fuel; every source loop iteration consumes at
least one token, and the top entry point supplies a generous bound. -/

/-- `src/tokenizer.rs`: `TokenType`, plus the `Space` variant that
`src/parser.rs` matches. -/
inductive TokenType where
  | Word (s : String)
  | RedirectionOperator (op : String)
  | FileDescriptor (n : Int)
  | Pipe
  | Background
  | LeftParen
  | RightParen
  | Semicolon
  | LogicalAnd
  | LogicalOr
  | DollarVar (s : String)
  | CommandSubstitution (s : String)
  | Comment (s : String)
  | Assignment (k v : String)
  | Newline
  | SingleQuotedString (s : String)
  | DoubleQuotedString (s : String)
  | Space
deriving DecidableEq, Repr

/-- The `ASTNode` shape as `src/parser.rs` actually builds it
(String-typed names/arguments and a `file`/`fd`/`mode` redirect). -/
inductive ParsedNode where
  | Command (name : String) (args : List String)
  | Pipe (left right : ParsedNode)
  | Redirect (command : ParsedNode) (file : String) (fd : Int) (mode : RedirectMode)
  | Background (command : ParsedNode)
  | LogicalAnd (left right : ParsedNode)
  | LogicalOr (left right : ParsedNode)
  | Subshell (command : ParsedNode)
  | Semicolon (left right : ParsedNode)
deriving DecidableEq, Repr

/-- Error text used when the fuel bound is hit (never reached for the
terminating source loops under the generous top-level bound). -/
def fuelMsg : String := "parser fuel exhausted"

/-- `src/parser.rs`: the `mode: match op` table of
`parse_command_with_redirects`. -/
def redirectModeOf (op : String) : Option RedirectMode :=
  if op = ">" then some RedirectMode.Overwrite
  else if op = ">>" then some RedirectMode.Append
  else if op = "<" then some RedirectMode.Input
  else none

mutual

/-- `src/parser.rs`: `parse_sequence`. -/
def parseSequence (fuel : Nat) (ts : List TokenType) :
    Except String (ParsedNode × List TokenType) :=
  match fuel with
  | 0 => Except.error fuelMsg
  | n + 1 =>
    match parseLogical n ts with
    | Except.error e => Except.error e
    | Except.ok (l, rest) => parseSequenceLoop n l rest

/-- The `while` loop of `parse_sequence` (fold over `;`). -/
def parseSequenceLoop (fuel : Nat) (left : ParsedNode) (ts : List TokenType) :
    Except String (ParsedNode × List TokenType) :=
  match fuel with
  | 0 => Except.error fuelMsg
  | n + 1 =>
    match ts with
    | TokenType.Semicolon :: rest =>
      match parseLogical n rest with
      | Except.error e => Except.error e
      | Except.ok (r, rest') => parseSequenceLoop n (ParsedNode.Semicolon left r) rest'
    | _ => Except.ok (left, ts)

/-- `src/parser.rs`: `parse_logical`. -/
def parseLogical (fuel : Nat) (ts : List TokenType) :
    Except String (ParsedNode × List TokenType) :=
  match fuel with
  | 0 => Except.error fuelMsg
  | n + 1 =>
    match parsePipeline n ts with
    | Except.error e => Except.error e
    | Except.ok (l, rest) => parseLogicalLoop n l rest

/-- The `while` loop of `parse_logical` (left-associative fold over
`&&`/`||` in a single tier). -/
def parseLogicalLoop (fuel : Nat) (left : ParsedNode) (ts : List TokenType) :
    Except String (ParsedNode × List TokenType) :=
  match fuel with
  | 0 => Except.error fuelMsg
  | n + 1 =>
    match ts with
    | TokenType.LogicalAnd :: rest =>
      match parsePipeline n rest with
      | Except.error e => Except.error e
      | Except.ok (r, rest') => parseLogicalLoop n (ParsedNode.LogicalAnd left r) rest'
    | TokenType.LogicalOr :: rest =>
      match parsePipeline n rest with
      | Except.error e => Except.error e
      | Except.ok (r, rest') => parseLogicalLoop n (ParsedNode.LogicalOr left r) rest'
    | _ => Except.ok (left, ts)

/-- `src/parser.rs`: `parse_pipeline`. -/
def parsePipeline (fuel : Nat) (ts : List TokenType) :
    Except String (ParsedNode × List TokenType) :=
  match fuel with
  | 0 => Except.error fuelMsg
  | n + 1 =>
    match parseCommandWithRedirects n ts with
    | Except.error e => Except.error e
    | Except.ok (l, rest) => parsePipelineLoop n l rest

/-- The `while` loop of `parse_pipeline` (left-associative fold over
`|`). -/
def parsePipelineLoop (fuel : Nat) (left : ParsedNode) (ts : List TokenType) :
    Except String (ParsedNode × List TokenType) :=
  match fuel with
  | 0 => Except.error fuelMsg
  | n + 1 =>
    match ts with
    | TokenType.Pipe :: rest =>
      match parseCommandWithRedirects n rest with
      | Except.error e => Except.error e
      | Except.ok (r, rest') => parsePipelineLoop n (ParsedNode.Pipe left r) rest'
    | _ => Except.ok (left, ts)

/-- `src/parser.rs`: `parse_command_with_redirects`. -/
def parseCommandWithRedirects (fuel : Nat) (ts : List TokenType) :
    Except String (ParsedNode × List TokenType) :=
  match fuel with
  | 0 => Except.error fuelMsg
  | n + 1 =>
    match parseCommand n "" [] ts with
    | Except.error e => Except.error e
    | Except.ok (cmd, rest) => parseCwrLoop n cmd (-1) rest

/-- The suffix loop of `parse_command_with_redirects`; `fd` is the
mutable file-descriptor accumulator (`-1` meaning unset). -/
def parseCwrLoop (fuel : Nat) (command : ParsedNode) (fd : Int) (ts : List TokenType) :
    Except String (ParsedNode × List TokenType) :=
  match fuel with
  | 0 => Except.error fuelMsg
  | n + 1 =>
    match ts with
    | TokenType.FileDescriptor num :: rest => parseCwrLoop n command num rest
    | TokenType.RedirectionOperator op :: rest =>
      let fd' := if fd = -1 then (if op = "<" then 0 else 1) else fd
      let rest1 := rest.dropWhile (fun t => t == TokenType.Space)
      match rest1 with
      | TokenType.Word file :: rest2 =>
        match redirectModeOf op with
        | some m => parseCwrLoop n (ParsedNode.Redirect command file fd' m) (-1) rest2
        | none => Except.error ("Unknown redirection operator: " ++ op)
      | TokenType.SingleQuotedString file :: rest2 =>
        match redirectModeOf op with
        | some m => parseCwrLoop n (ParsedNode.Redirect command file fd' m) (-1) rest2
        | none => Except.error ("Unknown redirection operator: " ++ op)
      | TokenType.DoubleQuotedString file :: rest2 =>
        match redirectModeOf op with
        | some m => parseCwrLoop n (ParsedNode.Redirect command file fd' m) (-1) rest2
        | none => Except.error ("Unknown redirection operator: " ++ op)
      | _ => Except.error "Expected file after redirection operator"
    | TokenType.Background :: rest => parseCwrLoop n (ParsedNode.Background command) fd rest
    | TokenType.LeftParen :: rest =>
      match parseSequence n rest with
      | Except.error e => Except.error e
      | Except.ok (sub, rest2) =>
        match rest2 with
        | TokenType.RightParen :: rest3 => parseCwrLoop n (ParsedNode.Subshell sub) fd rest3
        | _ => Except.error "Expected closing parenthesis for subshell"
    | TokenType.Space :: rest => parseCwrLoop n command fd rest
    | _ => Except.ok (command, ts)

/-- `src/parser.rs`: the token loop of `parse_command`; `name`/`args`
are the accumulators (empty name meaning not yet seen). -/
def parseCommand (fuel : Nat) (name : String) (args : List String) (ts : List TokenType) :
    Except String (ParsedNode × List TokenType) :=
  match fuel with
  | 0 => Except.error fuelMsg
  | n + 1 =>
    match ts with
    | TokenType.Word w :: rest =>
      if name.isEmpty then parseCommand n w args rest
      else parseCommand n name (args ++ [w]) rest
    | TokenType.SingleQuotedString w :: rest =>
      if name.isEmpty then parseCommand n w args rest
      else parseCommand n name (args ++ [w]) rest
    | TokenType.DoubleQuotedString w :: rest =>
      if name.isEmpty then parseCommand n w args rest
      else parseCommand n name (args ++ [w]) rest
    | TokenType.DollarVar v :: rest =>
      parseCommand n name (args ++ ["$" ++ v]) rest
    | TokenType.CommandSubstitution c :: rest =>
      parseCommand n name (args ++ ["$(" ++ c ++ ")"]) rest
    | TokenType.Assignment k v :: rest =>
      parseCommand n name (args ++ [k ++ "=" ++ v]) rest
    | TokenType.Comment _ :: rest =>
      if name.isEmpty then Except.error "Expected command"
      else Except.ok (ParsedNode.Command name args, rest)
    | TokenType.Space :: rest => parseCommand n name args rest
    | _ =>
      if name.isEmpty then Except.error "Expected command"
      else Except.ok (ParsedNode.Command name args, ts)

end

/-- `src/parser.rs`: `parse` — `parse_sequence` over the whole token
stream, run with ample fuel. -/
def parseTokens (tokens : List TokenType) : Except String ParsedNode :=
  match parseSequence (6 * (tokens.length + 2)) tokens with
  | Except.error e => Except.error e
  | Except.ok (ast, _rest) => Except.ok ast

/-- The value of a nonempty all-digit run, used by the bare-integer
check below. -/
def digitsVal (cs : List Char) : Option Nat :=
  if cs ≠ [] ∧ cs.all Char.isDigit then
    some (cs.foldl (fun a c => a * 10 + (c.toNat - '0'.toNat)) 0)
  else none

/-- Modelled from the spec: "if it parses as a bare integer" — the
surface grammar of Rust's `str::parse::<i32>`: an optional sign
followed by one or more decimal digits (the i32 range bound is not
modelled). -/
def parseBareInt (s : String) : Option Int :=
  match s.data with
  | '-' :: rest => (digitsVal rest).map (fun n => -(n : Int))
  | '+' :: rest => (digitsVal rest).map (fun n => (n : Int))
  | cs => (digitsVal cs).map (fun n => (n : Int))

/-- Modelled from the spec: the redirect-target disambiguation of the
`Word`-based parser described in §4.2 — "the target word is checked
textually: if it parses as a bare integer, the redirect is treated as
a descriptor duplication, otherwise as a file path".  This parser is
missing from `src/`: `src/ast.rs` declares `RedirectTarget` and
`src/executor.rs` consumes it, but the on-disk `src/parser.rs` is the
stale String-token parser above, which never constructs
`RedirectTarget`. -/
def parseRedirectTargetModel (targetText : String) : RedirectTarget :=
  match parseBareInt targetText with
  | some n => RedirectTarget.Descriptor n
  | none => RedirectTarget.File ⟨[WordPart.Simple targetText]⟩

/-! ## Shared concrete instances for witnesses and counterexamples -/

/-- A substitution oracle whose parse step always succeeds and whose
captured output is empty. -/
def sampleOracle : SubstOracle := ⟨fun _ => true, fun _ => "", fun _ => ""⟩

/-- A fresh session state. -/
def sampleState : ExecState := ⟨0, [], "/", [], [], none⟩

/-- A session state with a nonzero last status and nonempty tables. -/
def sampleState7 : ExecState :=
  ⟨7, [("HOME", "/root")], "/tmp", [("ll", "ls -l")], [], some ".history"⟩

/-- A one-part unquoted word. -/
def sampleWord (s : String) : Word := ⟨[WordPart.Simple s]⟩

/-- A bare command node with no arguments. -/
def sampleCmd (s : String) : ASTNode := ASTNode.Command (sampleWord s) []

/-- A world where nothing is a builtin, resolution always succeeds, and
the external command `false` exits 1 while everything else exits 0. -/
def statusWorld : World :=
  ⟨fun _ => false, fun _ _ e c => ⟨e, c, none⟩, fun n _ => some n,
   fun p _ => if p = "false" then 1 else 0, sampleOracle⟩

/-- A world where nothing is a builtin and command resolution always
fails. -/
def notFoundWorld : World :=
  ⟨fun _ => false, fun _ _ e c => ⟨e, c, none⟩, fun _ _ => none, fun _ _ => 0, sampleOracle⟩

/-! ## Evaluation helpers for concrete instances -/

theorem expandSSA_plain (st : ExecState) (pid : Nat) (dq : Bool) :
    ∀ cs : List Char, (∀ c ∈ cs, ¬ c = '\\' ∧ ¬ c = '$') →
      expandStringSegmentAux st pid dq cs = Except.ok (String.mk cs) := by
  intro cs h
  induction cs with
  | nil => simp [expandStringSegmentAux]
  | cons c tl ih =>
    have hc := h c (by simp)
    rw [expandStringSegmentAux.eq_def]
    simp only [hc.1, hc.2, if_false]
    rw [ih (fun d hd => h d (by simp [hd]))]
    exact congrArg Except.ok (String.ext (by simp))

theorem expandSS_plain (st : ExecState) (pid : Nat) (dq : Bool) (s : String)
    (h : ∀ c ∈ s.data, ¬ c = '\\' ∧ ¬ c = '$') :
    expandStringSegment st pid dq s = Except.ok s := by
  unfold expandStringSegment
  rw [expandSSA_plain st pid dq s.data h]

theorem expandWord_plain (st : ExecState) (pid : Nat) (o : SubstOracle) (s : String)
    (hb : backtickInner s.data = none)
    (h : ∀ c ∈ s.data, ¬ c = '\\' ∧ ¬ c = '$') :
    expandWordToString st pid o ⟨[WordPart.Simple s]⟩ = Except.ok s := by
  simp only [expandWordToString, expandWordParts, expandSimplePart, hb]
  rw [expandSS_plain st pid false s h]
  simp

/-! ## Claim theorems -/

/-- C2: for every `Pipe` node, the result returned by `execute` and the
`last_status` it stores are those of the rightmost command — the left
side (which runs in the forked child) never determines the reported
status; in particular `false | true` succeeds and `true | false`
fails. -/
theorem C2_pipe_status_rightmost :
    (∀ (w : World) (pid : Nat) (st : ExecState) (l r : ASTNode),
      (exec w pid st (ASTNode.Pipe l r)).1 = (exec w pid st r).1 ∧
      (exec w pid st (ASTNode.Pipe l r)).2.last_status =
        resultStatus (exec w pid st r).1) ∧
    exec statusWorld 42 sampleState (ASTNode.Pipe (sampleCmd "false") (sampleCmd "true")) =
      (Except.ok 0, { sampleState with last_status := 0 }) ∧
    exec statusWorld 42 sampleState (ASTNode.Pipe (sampleCmd "true") (sampleCmd "false")) =
      (Except.ok 1, { sampleState with last_status := 1 }) := by
  have hf := expandWord_plain sampleState 42 statusWorld.oracle "false" rfl (by decide)
  have ht := expandWord_plain sampleState 42 statusWorld.oracle "true" rfl (by decide)
  refine ⟨fun w pid st l r => ⟨rfl, rfl⟩, ?_, ?_⟩ <;>
    (simp only [exec, sampleCmd, sampleWord, hf, ht, expandArgs]
     simp [statusWorld, sampleState, resultStatus, pathVar, envGet, sampleOracle])

/-- C3: for every `SingleQuoted` word part, expansion is the identity on
its text — the raw text is copied verbatim, with no substitution and no
escape processing, both inside a larger word and as a whole word. -/
theorem C3_single_quoted_identity :
    (∀ (st : ExecState) (pid : Nat) (o : SubstOracle) (t : String) (ps : List WordPart),
      expandWordParts st pid o (WordPart.SingleQuoted t :: ps) =
        match expandWordParts st pid o ps with
        | Except.error e => Except.error e
        | Except.ok s => Except.ok (t ++ s)) ∧
    (∀ (st : ExecState) (pid : Nat) (o : SubstOracle) (t : String),
      expandWordToString st pid o ⟨[WordPart.SingleQuoted t]⟩ = Except.ok t) := by
  constructor
  · intro st pid o t ps
    rfl
  · intro st pid o t
    simp [expandWordToString, expandWordParts]

/-- C5 (spec-modelled): the redirect target is checked textually — a
target word whose text parses as a bare integer becomes a `Descriptor`
duplication, any other text becomes a `File` path, and a purely
numeric target is never treated as a file. -/
theorem C5_redirect_target_textual_check :
    ∀ t : String,
      (∀ n : Int, parseBareInt t = some n →
        parseRedirectTargetModel t = RedirectTarget.Descriptor n) ∧
      (parseBareInt t = none →
        parseRedirectTargetModel t = RedirectTarget.File ⟨[WordPart.Simple t]⟩) ∧
      (∀ (n : Int) (wd : Word), parseBareInt t = some n →
        parseRedirectTargetModel t ≠ RedirectTarget.File wd) := by
  intro t
  refine ⟨?_, ?_, ?_⟩
  · intro n h
    simp [parseRedirectTargetModel, h]
  · intro h
    simp [parseRedirectTargetModel, h]
  · intro n wd h
    simp [parseRedirectTargetModel, h]

/-- Witness for C5 at the concrete targets `2` and `out.txt`. -/
theorem C5_redirect_target_textual_check_witness :
    parseRedirectTargetModel "2" = RedirectTarget.Descriptor 2 ∧
    parseRedirectTargetModel "out.txt" = RedirectTarget.File ⟨[WordPart.Simple "out.txt"]⟩ :=
  ⟨(C5_redirect_target_textual_check "2").1 2 (by decide),
   (C5_redirect_target_textual_check "out.txt").2.1 (by decide)⟩

/-- C7: a `Command` whose expanded name is not a builtin and for which
command resolution returns no executable yields the `command not
found` error and sets `last_status` to exactly 127. -/
theorem C7_command_not_found_status_127 :
    ∀ (w : World) (pid : Nat) (st : ExecState) (name : Word) (args : List Word)
      (n : String) (argv : List String),
      expandWordToString st pid w.oracle name = Except.ok n →
      expandArgs st pid w.oracle args = Except.ok argv →
      w.isBuiltin n = false →
      w.resolve n (pathVar st) = none →
      exec w pid st (ASTNode.Command name args) =
        (Except.error (ShellError.CommandNotFound n), { st with last_status := 127 }) := by
  intro w pid st name args n argv h1 h2 h3 h4
  simp [exec, h1, h2, h3, h4]

/-- Witness for C7: an unresolvable command name. -/
theorem C7_command_not_found_status_127_witness :
    exec notFoundWorld 42 sampleState (sampleCmd "nosuch") =
      (Except.error (ShellError.CommandNotFound "nosuch"),
        { sampleState with last_status := 127 }) :=
  C7_command_not_found_status_127 notFoundWorld 42 sampleState (sampleWord "nosuch") []
    "nosuch" []
    (expandWord_plain sampleState 42 notFoundWorld.oracle "nosuch" rfl (by decide))
    rfl rfl rfl

/-- C8 counterexample: the sub-evaluation state is not a field-for-field
copy — at a parent state whose last status is 7, the clone's last
status is 0. -/
theorem C8_counterexample :
    (newForCommandSubstitution sampleState7).last_status = 0 ∧
    sampleState7.last_status = 7 ∧
    (newForCommandSubstitution sampleState7).last_status ≠ sampleState7.last_status := by
  decide

/-- C8 (amended): the command-substitution clone copies the
environment, current directory, alias table, function table and
history file but resets the last exit status to 0; and a non-builtin
`Command` execution (including any substitution performed while
expanding its words) changes nothing in the parent state but
`last_status`. -/
theorem C8_amended_clone_resets_status :
    (∀ s : ExecState, newForCommandSubstitution s = { s with last_status := 0 }) ∧
    (∀ (w : World) (pid : Nat) (st : ExecState) (name : Word) (args : List Word),
      (∀ n, expandWordToString st pid w.oracle name = Except.ok n → w.isBuiltin n = false) →
      (exec w pid st (ASTNode.Command name args)).2 =
        { st with last_status := (exec w pid st (ASTNode.Command name args)).2.last_status }) := by
  constructor
  · intro s
    rfl
  · intro w pid st name args hnb
    cases hn : expandWordToString st pid w.oracle name with
    | error e => simp [exec, hn]
    | ok n =>
      cases ha : expandArgs st pid w.oracle args with
      | error e => simp [exec, hn, ha]
      | ok argv =>
        have hb := hnb n hn
        cases hr : w.resolve n (pathVar st) with
        | none => simp [exec, hn, ha, hb, hr]
        | some path => simp [exec, hn, ha, hb, hr]

/-- Witness for C8 (amended): the frame part at a concrete command. -/
theorem C8_amended_clone_resets_status_witness :
    (exec notFoundWorld 42 sampleState7 (sampleCmd "nosuch")).2 =
      { sampleState7 with
        last_status := (exec notFoundWorld 42 sampleState7 (sampleCmd "nosuch")).2.last_status } :=
  C8_amended_clone_resets_status.2 notFoundWorld 42 sampleState7 (sampleWord "nosuch") []
    (fun _ _ => rfl)

/-- C1 counterexample: in a double-quoted part the code maps the
two-character sequence backslash-n to a real newline, not to the two
characters backslash and n that the claim requires. -/
theorem C1_counterexample :
    expandStringSegment sampleState 0 true "\\n" = Except.ok "\n" ∧
    ("\n" : String) ≠ "\\n" := by
  constructor
  · simp [expandStringSegment, expandStringSegmentAux, dqEscape]
  · decide

/-- The amended double-quote escape table, stated from the amended
claim's words: a backslash before one of dollar, backtick, double
quote, backslash yields that bare character; backslash-n yields a
newline and backslash-t a tab; a backslash before any other character
yields the two characters backslash-X. -/
def dqEscapeSpec (d : Char) : String :=
  if d = '$' ∨ d = btick ∨ d = '"' ∨ d = '\\' then String.mk [d]
  else if d = 'n' then "\n"
  else if d = 't' then "\t"
  else String.mk ['\\', d]

theorem dqEscape_eq_spec (d : Char) : dqEscape d = dqEscapeSpec d := by
  by_cases h1 : d = 'n'
  · subst h1; rfl
  · by_cases h2 : d = 't'
    · subst h2; rfl
    · by_cases h3 : d = '\\'
      · subst h3; rfl
      · by_cases h4 : d = '"'
        · subst h4; rfl
        · by_cases h5 : d = '$'
          · subst h5; rfl
          · by_cases h6 : d = btick
            · subst h6; rfl
            · simp [dqEscape, dqEscapeSpec, h1, h2, h3, h4, h5, h6]

/-- C1 (amended): a `DoubleQuoted` part goes through the double-quoted
segment expansion, in which a backslash before one of the four
characters dollar, backtick, double quote, backslash yields the bare
character, backslash-n yields a newline, backslash-t yields a tab, and
a backslash before any other character X yields the two characters
backslash-X. -/
theorem C1_amended_double_quoted_escapes :
    (∀ (st : ExecState) (pid : Nat) (o : SubstOracle) (t : String),
      expandWordToString st pid o ⟨[WordPart.DoubleQuoted t]⟩ =
        expandStringSegment st pid true t) ∧
    (∀ (st : ExecState) (pid : Nat) (d : Char) (cs : List Char),
      expandStringSegmentAux st pid true ('\\' :: d :: cs) =
        match expandStringSegmentAux st pid true cs with
        | Except.error e => Except.error e
        | Except.ok s => Except.ok (dqEscapeSpec d ++ s)) := by
  constructor
  · intro st pid o t
    simp only [expandWordToString, expandWordParts]
    cases h : expandStringSegment st pid true t with
    | error e => simp [h]
    | ok s => simp [h]
  · intro st pid d cs
    rw [expandStringSegmentAux.eq_def]
    simp only [reduceIte, dqEscape_eq_spec]

/-- Any suffix of `T ++ D` longer than `D`, where every element of `T`
satisfies `p`, starts with an element satisfying `p`. -/
theorem suffix_longer_head {α} (p : α → Bool) :
    ∀ (T D s' : List α), (∀ x ∈ T, p x = true) → s' <:+ T ++ D →
      D.length < s'.length → ∃ c, s'.head? = some c ∧ p c = true := by
  intro T
  induction T with
  | nil =>
    intro D s' _ hs hlen
    exact absurd hs.length_le (by simpa using Nat.not_le_of_lt hlen)
  | cons t T' ih =>
    intro D s' hT hs hlen
    rcases List.suffix_cons_iff.mp hs with h | h
    · exact ⟨t, by simp [h], hT t (by simp)⟩
    · exact ih D s' (fun x hx => hT x (by simp [hx])) h hlen

/-- `dropTrailingNewlines cs` is the longest prefix of `cs` that does
not end in a newline. -/
theorem dropTrailingNewlines_spec (cs : List Char) :
    dropTrailingNewlines cs <+: cs ∧
    (dropTrailingNewlines cs).getLast? ≠ some '\n' ∧
    ∀ q : List Char, q <+: cs → q.getLast? ≠ some '\n' →
      q.length ≤ (dropTrailingNewlines cs).length := by
  unfold dropTrailingNewlines
  refine ⟨?_, ?_, ?_⟩
  · have h1 := List.dropWhile_suffix (l := cs.reverse) (fun c => c = '\n')
    have h2 := List.reverse_prefix.mpr h1
    rwa [List.reverse_reverse] at h2
  · rw [List.getLast?_reverse]
    intro hcon
    have h2 := List.head?_dropWhile_not (fun c => decide (c = '\n')) cs.reverse
    rw [hcon] at h2
    simp at h2
  · intro q hq hlast
    by_contra hgt
    push_neg at hgt
    have hsuf : q.reverse <:+ cs.reverse := List.reverse_suffix.mpr hq
    have hTD : (cs.reverse.takeWhile (fun c => decide (c = '\n'))) ++
        (cs.reverse.dropWhile (fun c => decide (c = '\n'))) = cs.reverse :=
      List.takeWhile_append_dropWhile (fun c => decide (c = '\n')) cs.reverse
    have hmem : ∀ x ∈ cs.reverse.takeWhile (fun c => decide (c = '\n')),
        decide (x = '\n') = true :=
      fun x hx => List.mem_takeWhile_imp (p := fun c => decide (c = '\n')) hx
    have hlen : (cs.reverse.dropWhile (fun c => decide (c = '\n'))).length < q.reverse.length := by
      simpa using hgt
    obtain ⟨c, hhead, hc⟩ :=
      suffix_longer_head (fun c => decide (c = '\n'))
        (cs.reverse.takeWhile (fun c => decide (c = '\n')))
        (cs.reverse.dropWhile (fun c => decide (c = '\n'))) q.reverse
        hmem (by rw [hTD]; exact hsuf) hlen
    rw [List.head?_reverse] at hhead
    have hcn : c = '\n' := by simpa using hc
    exact hlast (hcn ▸ hhead)

/-- C4: the captured output of a backtick command substitution loses
every trailing newline — the substituted text is exactly the longest
prefix of the captured output that does not end in a newline; a
capture of `hello` followed by two newlines substitutes to exactly
`hello`. -/
theorem C4_substitution_strips_trailing_newlines :
    (∀ (st : ExecState) (pid : Nat) (o : SubstOracle) (cmd : String),
      ¬ cmd = "" → (lex cmd).all isSpaceOrNewlineToken = false → o.parses cmd = true →
      expandWordToString st pid o ⟨[WordPart.Simple ("`" ++ cmd ++ "`")]⟩ =
        Except.ok (stripTrailingNewlines (o.capture cmd))) ∧
    (∀ out : String,
      (stripTrailingNewlines out).data <+: out.data ∧
      (stripTrailingNewlines out).data.getLast? ≠ some '\n' ∧
      ∀ q : List Char, q <+: out.data → q.getLast? ≠ some '\n' →
        q.length ≤ (stripTrailingNewlines out).data.length) ∧
    stripTrailingNewlines "hello\n\n" = "hello" := by
  refine ⟨?_, fun out => dropTrailingNewlines_spec out.data, by decide⟩
  intro st pid o cmd hne hlex hpar
  have h0 : ("`" : String).data = [btick] := rfl
  have hdata : ("`" ++ cmd ++ "`").data = btick :: (cmd.data ++ [btick]) := by
    rw [String.data_append, String.data_append, h0]
    simp
  have hinner : backtickInner (("`" ++ cmd ++ "`").data) = some cmd.data := by
    rw [hdata]
    simp [backtickInner, List.getLast?_concat]
  have hie : cmd.isEmpty = false := by
    rw [Bool.eq_false_iff]
    intro hx
    exact hne ((String.isEmpty_iff cmd).mp hx)
  simp only [expandWordToString, expandWordParts, expandSimplePart, hinner]
  simp [hie, hlex, hpar]

/-- One unfolding step of the token-collecting loop. -/
theorem lexAux_step (cs : List Char) :
    lexAux cs = match nextToken cs with
      | none => []
      | some (t, rest) => t :: lexAux rest := by
  rw [lexAux.eq_def]
  cases h : nextToken cs with
  | none => rfl
  | some pr => rfl

theorem lex_echo_hello :
    lex "echo hello" =
      [Token.Word ⟨[WordPart.Simple "echo"]⟩, Token.Word ⟨[WordPart.Simple "hello"]⟩] := by
  have e1 : nextToken (("echo hello" : String).data) =
      some (Token.Word ⟨[WordPart.Simple "echo"]⟩, [' ', 'h', 'e', 'l', 'l', 'o']) := rfl
  have e2 : nextToken [' ', 'h', 'e', 'l', 'l', 'o'] =
      some (Token.Word ⟨[WordPart.Simple "hello"]⟩, []) := rfl
  have e3 : nextToken ([] : List Char) = none := rfl
  rw [lex]
  simp only [lexAux_step, e1, e2, e3]

/-- Witness for C4: the command `echo hello` with captured output
`hello` plus two trailing newlines substitutes to `hello`. -/
theorem C4_substitution_strips_trailing_newlines_witness :
    expandWordToString sampleState 42
      ⟨fun _ => true, fun _ => "", fun _ => "hello\n\n"⟩
      ⟨[WordPart.Simple ("`" ++ "echo hello" ++ "`")]⟩ = Except.ok "hello" :=
  C4_substitution_strips_trailing_newlines.1 sampleState 42
    ⟨fun _ => true, fun _ => "", fun _ => "hello\n\n"⟩ "echo hello"
    (by decide) (by rw [lex_echo_hello]; decide) rfl

theorem readOperator_ne_space (cs : List Char) : (readOperator cs).1 ≠ Token.Space := by
  match cs with
  | [] => simp [readOperator]
  | c :: rest =>
    simp only [readOperator]
    repeat' split
    all_goals simp

theorem nextToken_ne_space (cs : List Char) (t : Token) (rest : List Char)
    (h : nextToken cs = some (t, rest)) : t ≠ Token.Space := by
  unfold nextToken at h
  cases hd : cs.dropWhile isWhitespaceChar with
  | nil => rw [hd] at h; simp [nextTokenLoop] at h
  | cons c tl =>
    have hcw : isWhitespaceChar c = false := by
      have h2 := List.head?_dropWhile_not isWhitespaceChar cs
      rw [hd] at h2
      simpa using h2
    rw [hd] at h
    simp only [nextTokenLoop] at h
    split at h
    · have ht := congrArg Prod.fst (Option.some.inj h)
      simp only at ht
      rw [← ht]
      simp
    · split at h
      · rename_i hws
        exact absurd hws (by simpa [isWhitespaceChar] using hcw)
      · split at h
        · have ht := congrArg Prod.fst (Option.some.inj h)
          simp only at ht
          rw [← ht]
          simp
        · split at h
          · split at h
            · have ht := congrArg Prod.fst (Option.some.inj h)
              simp only at ht
              rw [← ht]
              exact readOperator_ne_space _
            · have ht := congrArg Prod.fst (Option.some.inj h)
              simp only at ht
              rw [← ht]
              simp
          · split at h
            · have ht := congrArg Prod.fst (Option.some.inj h)
              simp only at ht
              rw [← ht]
              exact readOperator_ne_space _
            · have ht := congrArg Prod.fst (Option.some.inj h)
              simp only at ht
              rw [← ht]
              simp

theorem lexAux_no_space (cs : List Char) : Token.Space ∉ lexAux cs := by
  suffices hgen : ∀ (n : Nat) (cs : List Char), cs.length ≤ n → Token.Space ∉ lexAux cs from
    hgen cs.length cs le_rfl
  intro n
  induction n with
  | zero =>
    intro cs hcs
    have : cs = [] := List.length_eq_zero.mp (Nat.le_zero.mp hcs)
    subst this
    rw [lexAux_step, show nextToken ([] : List Char) = none from rfl]
    simp
  | succ n ih =>
    intro cs hcs
    rw [lexAux_step]
    cases hnt : nextToken cs with
    | none => simp
    | some pr =>
      obtain ⟨t, rest⟩ := pr
      intro hmem
      rcases List.mem_cons.mp hmem with h | h
      · exact nextToken_ne_space cs t rest hnt h.symm
      · have hlt := nextToken_shrinks cs t rest hnt
        exact ih rest (by omega) h

/-- C9: `lex` never emits a `Space` token — on `a b` the tokens are the
two words with no `Space` between them, and no input at all produces a
`Space` token (the Space-emitting arm of `next_token` is unreachable
because `consume_whitespace` has already skipped every space and
tab). -/
theorem C9_lex_emits_no_space_tokens :
    lex "a b" = [Token.Word ⟨[WordPart.Simple "a"]⟩, Token.Word ⟨[WordPart.Simple "b"]⟩] ∧
    (∀ s : String, Token.Space ∉ lex s) := by
  constructor
  · have e1 : nextToken (("a b" : String).data) =
        some (Token.Word ⟨[WordPart.Simple "a"]⟩, [' ', 'b']) := rfl
    have e2 : nextToken [' ', 'b'] = some (Token.Word ⟨[WordPart.Simple "b"]⟩, []) := rfl
    have e3 : nextToken ([] : List Char) = none := rfl
    rw [lex]
    simp only [lexAux_step, e1, e2, e3]
  · intro s
    exact lexAux_no_space s.data

theorem bracedVarName_append_all (l r : List Char) (h : ∀ c ∈ l, isVarChar c = true) :
    bracedVarName (l ++ rbrace :: r) = Except.ok (l, r) := by
  induction l with
  | nil => simp [bracedVarName]
  | cons c tl ih =>
    have hc := h c (by simp)
    have hne : ¬ c = rbrace := by
      intro he
      rw [he] at hc
      exact absurd hc (by decide)
    simp [bracedVarName, hne, hc, ih (fun d hd => h d (by simp [hd]))]

theorem readVariableName_bare_all (d : Char) (tl : List Char)
    (h : ∀ c ∈ d :: tl, isVarChar c = true) :
    readVariableName (d :: tl) = Except.ok (String.mk (d :: tl), []) := by
  have hd := h d (by simp)
  have hlb : ¬ d = lbrace := by
    intro he
    rw [he] at hd
    exact absurd hd (by decide)
  simp only [readVariableName]
  rw [if_neg hlb]
  rw [List.takeWhile_eq_self_iff.mpr (fun x hx => h x hx),
      List.dropWhile_eq_nil_iff.mpr (fun x hx => h x hx)]

theorem backtickInner_not_span (c : Char) (l : List Char) (h : ¬ c = btick) :
    backtickInner (c :: l) = none := by
  simp [backtickInner, h]

theorem expandWord_single_simple (st : ExecState) (pid : Nat) (o : SubstOracle)
    (s v : String) (hb : backtickInner s.data = none)
    (h : expandStringSegment st pid false s = Except.ok v) :
    expandWordToString st pid o ⟨[WordPart.Simple s]⟩ = Except.ok v := by
  simp [expandWordToString, expandWordParts, expandSimplePart, hb, h]

/-- C10: unquoted `Simple` fragments that are not backtick spans get
the same variable substitutions as double-quoted text: `$name` and the
brace form are replaced by the environment value of `name` (empty when
unset), `$?` by the decimal last status, and `$$` by the process
id. -/
theorem C10_simple_parts_variable_substitution :
    ∀ (st : ExecState) (pid : Nat) (o : SubstOracle) (name : String),
      ¬ name = "" → (∀ c ∈ name.data, isVarChar c = true) →
      expandWordToString st pid o ⟨[WordPart.Simple ("$" ++ name)]⟩ =
        Except.ok ((envGet st.environment name).getD "") ∧
      expandWordToString st pid o
          ⟨[WordPart.Simple ("$" ++ String.mk [lbrace] ++ name ++ String.mk [rbrace])]⟩ =
        Except.ok ((envGet st.environment name).getD "") ∧
      expandWordToString st pid o ⟨[WordPart.Simple "$?"]⟩ =
        Except.ok (toString st.last_status) ∧
      expandWordToString st pid o ⟨[WordPart.Simple "$$"]⟩ =
        Except.ok (toString pid) := by
  intro st pid o name hne hvc
  have hnil : expandStringSegmentAux st pid false [] = Except.ok "" := by
    rw [expandStringSegmentAux.eq_def]
  have hds : ¬ (('$' : Char) = '\\') := by decide
  cases hnd : name.data with
  | nil =>
    have : name = "" := String.ext (by rw [hnd])
    exact absurd this hne
  | cons d tl =>
    have hall : ∀ c ∈ d :: tl, isVarChar c = true := by
      rw [← hnd]; exact hvc
    have hd := hall d (by simp)
    have hdq : ¬ d = '?' := fun he => absurd (he ▸ hd) (by decide)
    have hdd : ¬ d = '$' := fun he => absurd (he ▸ hd) (by decide)
    have hdol : ("$" : String).data = ['$'] := rfl
    have heta : String.mk (d :: tl) = name := by rw [← hnd]
    have hnm : (String.mk (d :: tl)).isEmpty = false := by
      rw [Bool.eq_false_iff]
      intro hx
      have hmk := (String.isEmpty_iff (String.mk (d :: tl))).mp hx
      exact absurd (congrArg String.data hmk) (by simp)
    refine ⟨?_, ?_, ?_, ?_⟩
    · have hdata : ("$" ++ name).data = '$' :: (d :: tl) := by
        rw [String.data_append, hdol, hnd]; rfl
      apply expandWord_single_simple st pid o _ _
        (by rw [hdata]; exact backtickInner_not_span _ _ (by decide))
      unfold expandStringSegment
      rw [hdata]
      rw [expandStringSegmentAux.eq_def]
      simp only [eq_false hds, eq_false hdq, eq_false hdd, if_false, reduceIte]
      split
      · rename_i e hv
        rw [readVariableName_bare_all d tl hall] at hv
        cases hv
      · rename_i nm rest2 hv
        rw [readVariableName_bare_all d tl hall] at hv
        have hpair := Except.ok.inj hv
        have hnm2 := congrArg Prod.fst hpair
        have hrest2 := congrArg Prod.snd hpair
        simp only at hnm2 hrest2
        rw [← hnm2, ← hrest2, hnil, heta]
        have hne2 : name.isEmpty = false := by rw [← heta]; exact hnm
        simp [hne2]
    · have hdata : ("$" ++ String.mk [lbrace] ++ name ++ String.mk [rbrace]).data =
          '$' :: lbrace :: (name.data ++ [rbrace]) := by
        rw [String.data_append, String.data_append, String.data_append, hdol]
        rfl
      have hlbq : ¬ lbrace = '?' := by decide
      have hlbd : ¬ lbrace = '$' := by decide
      have hlbs : ¬ lbrace = '\\' := by decide
      have hbr : readVariableName (lbrace :: (name.data ++ [rbrace])) =
          Except.ok (String.mk name.data, []) := by
        simp only [readVariableName, reduceIte, bracedVarName_append_all name.data [] hvc]
        rw [if_neg]
        rintro ⟨h1, _⟩
        rw [hnd] at h1
        exact absurd h1 (by simp)
      apply expandWord_single_simple st pid o _ _
        (by rw [hdata]; exact backtickInner_not_span _ _ (by decide))
      unfold expandStringSegment
      rw [hdata]
      rw [expandStringSegmentAux.eq_def]
      simp only [eq_false hds, eq_false hlbq, eq_false hlbd, eq_false hlbs, if_false, reduceIte]
      split
      · rename_i e hv
        rw [hbr] at hv
        cases hv
      · rename_i nm rest2 hv
        rw [hbr] at hv
        have hpair := Except.ok.inj hv
        have hnm2 := congrArg Prod.fst hpair
        have hrest2 := congrArg Prod.snd hpair
        simp only at hnm2 hrest2
        have heta2 : String.mk name.data = name := rfl
        rw [← hnm2, ← hrest2, hnil, heta2]
        have hne2 : name.isEmpty = false := by rw [← heta]; exact hnm
        simp [hne2]
    · apply expandWord_single_simple st pid o _ _ (backtickInner_not_span _ _ (by decide))
      unfold expandStringSegment
      rw [show ("$?" : String).data = ['$', '?'] from rfl]
      simp [expandStringSegmentAux]
    · apply expandWord_single_simple st pid o _ _ (backtickInner_not_span _ _ (by decide))
      unfold expandStringSegment
      rw [show ("$$" : String).data = ['$', '$'] from rfl]
      simp [expandStringSegmentAux]

/-- Witness for C10 at a concrete environment and name. -/
theorem C10_simple_parts_variable_substitution_witness :
    expandWordToString sampleState7 42 sampleOracle ⟨[WordPart.Simple ("$" ++ "HOME")]⟩ =
      Except.ok ((envGet sampleState7.environment "HOME").getD "") :=
  (C10_simple_parts_variable_substitution sampleState7 42 sampleOracle "HOME"
    (by decide) (by decide)).1

/-- C6: `parse_logical` folds `&&` and `||` strictly left-associatively
in a single precedence tier — the token form `a && b || c` parses to
`LogicalOr` whose left child is `LogicalAnd a b` and whose right child
is `c`. -/
theorem C6_logical_operators_left_associative :
    ∀ (a b c : String), ¬ a = "" → ¬ b = "" → ¬ c = "" →
      parseTokens [TokenType.Word a, TokenType.LogicalAnd, TokenType.Word b,
          TokenType.LogicalOr, TokenType.Word c] =
        Except.ok (ParsedNode.LogicalOr
          (ParsedNode.LogicalAnd (ParsedNode.Command a []) (ParsedNode.Command b []))
          (ParsedNode.Command c [])) := by
  intro a b c ha hb hc
  have ha2 : a.isEmpty = false := by
    rw [Bool.eq_false_iff]
    intro hx
    exact ha ((String.isEmpty_iff a).mp hx)
  have hb2 : b.isEmpty = false := by
    rw [Bool.eq_false_iff]
    intro hx
    exact hb ((String.isEmpty_iff b).mp hx)
  have hc2 : c.isEmpty = false := by
    rw [Bool.eq_false_iff]
    intro hx
    exact hc ((String.isEmpty_iff c).mp hx)
  have h0 : ("" : String).isEmpty = true := rfl
  simp [parseTokens, parseSequence, parseSequenceLoop, parseLogical, parseLogicalLoop,
    parsePipeline, parsePipelineLoop, parseCommandWithRedirects, parseCwrLoop,
    parseCommand, ha2, hb2, hc2, h0]

/-- Witness for C6 at concrete single-word commands. -/
theorem C6_logical_operators_left_associative_witness :
    parseTokens [TokenType.Word "x", TokenType.LogicalAnd, TokenType.Word "y",
        TokenType.LogicalOr, TokenType.Word "z"] =
      Except.ok (ParsedNode.LogicalOr
        (ParsedNode.LogicalAnd (ParsedNode.Command "x" []) (ParsedNode.Command "y" []))
        (ParsedNode.Command "z" [])) :=
  C6_logical_operators_left_associative "x" "y" "z" (by decide) (by decide) (by decide)
